import Mathlib

/-!
Verification development for the `claude-context` lock core
(`src/packages/core/src/lock/index.ts` and its earlier variant).

The module is embedded shallowly: the process-wide mutable state
(`isLeader`, `lockInterval`, `heldCodebaseLocks`) becomes an explicit
`LockState`; every operation takes the outcome of each OS Advisory Lock
Adapter call (`proper-lockfile`'s `lock`/`unlock`/`checkSync`) as a
boolean (or `Except`) parameter and returns, besides its result and the
updated state, the list of adapter calls it performed.  The `md5` digest
used by `getCodebaseLockPath` is implemented concretely (RFC 1321).
-/

namespace ClaudeContext

/-! MD5 digest, as performed by `crypto.createHash('md5').update(s).digest('hex')`. -/

namespace MD5

def mask32 : Nat := 4294967296

/-- Left rotation of a 32-bit word. -/
def rotl32 (x n : Nat) : Nat := ((x <<< n) ||| (x >>> (32 - n))) % mask32

/-- Bitwise complement on 32 bits. -/
def bnot32 (x : Nat) : Nat := x ^^^ 4294967295

/-- Per-round additive constants (floor(abs(sin(i+1)) * 2^32)). -/
def kConst : List Nat :=
  [0xd76aa478, 0xe8c7b756, 0x242070db, 0xc1bdceee,
   0xf57c0faf, 0x4787c62a, 0xa8304613, 0xfd469501,
   0x698098d8, 0x8b44f7af, 0xffff5bb1, 0x895cd7be,
   0x6b901122, 0xfd987193, 0xa679438e, 0x49b40821,
   0xf61e2562, 0xc040b340, 0x265e5a51, 0xe9b6c7aa,
   0xd62f105d, 0x02441453, 0xd8a1e681, 0xe7d3fbc8,
   0x21e1cde6, 0xc33707d6, 0xf4d50d87, 0x455a14ed,
   0xa9e3e905, 0xfcefa3f8, 0x676f02d9, 0x8d2a4c8a,
   0xfffa3942, 0x8771f681, 0x6d9d6122, 0xfde5380c,
   0xa4beea44, 0x4bdecfa9, 0xf6bb4b60, 0xbebfbc70,
   0x289b7ec6, 0xeaa127fa, 0xd4ef3085, 0x04881d05,
   0xd9d4d039, 0xe6db99e5, 0x1fa27cf8, 0xc4ac5665,
   0xf4292244, 0x432aff97, 0xab9423a7, 0xfc93a039,
   0x655b59c3, 0x8f0ccc92, 0xffeff47d, 0x85845dd1,
   0x6fa87e4f, 0xfe2ce6e0, 0xa3014314, 0x4e0811a1,
   0xf7537e82, 0xbd3af235, 0x2ad7d2bb, 0xeb86d391]

/-- Per-round left-rotation amounts. -/
def sConst : List Nat :=
  [7, 12, 17, 22, 7, 12, 17, 22, 7, 12, 17, 22, 7, 12, 17, 22,
   5, 9, 14, 20, 5, 9, 14, 20, 5, 9, 14, 20, 5, 9, 14, 20,
   4, 11, 16, 23, 4, 11, 16, 23, 4, 11, 16, 23, 4, 11, 16, 23,
   6, 10, 15, 21, 6, 10, 15, 21, 6, 10, 15, 21, 6, 10, 15, 21]

/-- Round mixing function, selected by round index. -/
def fSel (i b c d : Nat) : Nat :=
  if i < 16 then (b &&& c) ||| (bnot32 b &&& d)
  else if i < 32 then (d &&& b) ||| (bnot32 d &&& c)
  else if i < 48 then b ^^^ c ^^^ d
  else c ^^^ (b ||| bnot32 d)

/-- Message-word index used by round `i`. -/
def gIdx (i : Nat) : Nat :=
  if i < 16 then i
  else if i < 32 then (5 * i + 1) % 16
  else if i < 48 then (3 * i + 5) % 16
  else (7 * i) % 16

/-- Little-endian 32-bit word `g` of a 64-byte chunk. -/
def wordAt (chunk : List Nat) (g : Nat) : Nat :=
  chunk.getD (4 * g) 0 + 256 * chunk.getD (4 * g + 1) 0 +
    65536 * chunk.getD (4 * g + 2) 0 + 16777216 * chunk.getD (4 * g + 3) 0

/-- One of the 64 rounds of the compression function. -/
def roundStep (chunk : List Nat) (st : Nat × Nat × Nat × Nat) (i : Nat) :
    Nat × Nat × Nat × Nat :=
  let a := st.1
  let b := st.2.1
  let c := st.2.2.1
  let d := st.2.2.2
  let f := (fSel i b c d + a + kConst.getD i 0 + wordAt chunk (gIdx i)) % mask32
  (d, (b + rotl32 f (sConst.getD i 0)) % mask32, b, c)

/-- Compress one 64-byte chunk into the running state. -/
def processChunk (st : Nat × Nat × Nat × Nat) (chunk : List Nat) :
    Nat × Nat × Nat × Nat :=
  let r := (List.range 64).foldl (roundStep chunk) st
  ((st.1 + r.1) % mask32, (st.2.1 + r.2.1) % mask32,
   (st.2.2.1 + r.2.2.1) % mask32, (st.2.2.2 + r.2.2.2) % mask32)

/-- Little-endian byte serialization of a 32-bit word. -/
def wordToBytesLE (w : Nat) : List Nat :=
  [w % 256, w / 256 % 256, w / 65536 % 256, w / 16777216 % 256]

/-- MD5 padding: 0x80, zeros to 56 mod 64, then the bit length as 8 LE bytes. -/
def padMsg (msg : List Nat) : List Nat :=
  let bitLen := msg.length * 8
  let zeros := (119 - msg.length % 64) % 64
  msg ++ [128] ++ List.replicate zeros 0 ++
    [bitLen % 256, bitLen / 2 ^ 8 % 256, bitLen / 2 ^ 16 % 256, bitLen / 2 ^ 24 % 256,
     bitLen / 2 ^ 32 % 256, bitLen / 2 ^ 40 % 256, bitLen / 2 ^ 48 % 256,
     bitLen / 2 ^ 56 % 256]

/-- Split a byte list into 64-byte chunks. -/
def chunkify (l : List Nat) : List (List Nat) :=
  if h : l = [] then []
  else
    have : l.length - 64 < l.length :=
      Nat.sub_lt (List.length_pos.mpr h) (by decide)
    l.take 64 :: chunkify (l.drop 64)
termination_by l.length
decreasing_by simpa using this

def initSt : Nat × Nat × Nat × Nat := (0x67452301, 0xefcdab89, 0x98badcfe, 0x10325476)

/-- Serialize the final state as the 16 digest bytes. -/
def digestBytes (st : Nat × Nat × Nat × Nat) : List Nat :=
  wordToBytesLE st.1 ++ wordToBytesLE st.2.1 ++ wordToBytesLE st.2.2.1 ++
    wordToBytesLE st.2.2.2

/-- MD5 digest of a byte list: 16 bytes. -/
def md5Bytes (msg : List Nat) : List Nat :=
  digestBytes ((chunkify (padMsg msg)).foldl processChunk initSt)

/-- Lowercase hex character of a nibble: digits are code points 48..57,
letters 97..102. -/
def hexDigitChar (n : Nat) : Char :=
  if n < 10 then Char.ofNat (48 + n) else Char.ofNat (87 + n)

/-- A character drawn from the lowercase hex alphabet. -/
def isHexDigit (c : Char) : Prop :=
  ('0' ≤ c ∧ c ≤ '9') ∨ ('a' ≤ c ∧ c ≤ 'f')

instance (c : Char) : Decidable (isHexDigit c) := by
  unfold isHexDigit
  infer_instance

/-- Two lowercase hex characters of one byte. -/
def byteToHex (b : Nat) : List Char :=
  [hexDigitChar (b / 16 % 16), hexDigitChar (b % 16)]

/-- Lowercase hex rendering of the digest, `digest('hex')`. -/
def md5Hex (msg : List Nat) : String :=
  ⟨((md5Bytes msg).map byteToHex).flatten⟩

end MD5

/-- UTF-8 bytes of a string, as fed to `hash.update`. -/
def strBytes (s : String) : List Nat :=
  s.toUTF8.toList.map UInt8.toNat

/-- Ambient process environment: the home directory (`os.homedir()`) and the
canonicalization performed by `path.resolve`, both external to the module. -/
structure Env where
  home : String
  resolve : String → String

/-- Model of `path.join` for the single-segment joins the module performs. -/
def joinPath (a b : String) : String := a ++ "/" ++ b

def CONTEXT_DIR (env : Env) : String := joinPath env.home ".context"

def LOCK_FILE (env : Env) : String := joinPath (CONTEXT_DIR env) "leader.lock"

def LOCKS_DIR (env : Env) : String := joinPath (CONTEXT_DIR env) "locks"

/-- Interval between leader-lock retries, `setInterval(acquireLock, 5000)`. -/
def retryIntervalMs : Nat := 5000

/-- One observable call made by the module: an adapter call
(`lockfile.lock` / `lockfile.unlock` / `lockfile.checkSync` on a path) or the
explicit `process.exit()` of a signal handler. -/
inductive Event where
  | lockCall (path : String)
  | unlockCall (path : String)
  | checkCall (path : String)
  | processExit
deriving DecidableEq

/-- The module's process-wide mutable state.  `isLeader`, `lockInterval` and
`heldCodebaseLocks` are the module's three top-level variables; `lockInterval`
carries a handle id plus the interval in ms.  The last three fields are ghost
history variables used only to state invariants: `nextTimerId` generates fresh
timer handles, `failedOnce` records whether some leader acquisition attempt has
ever failed, `lastAttemptFailed` whether the most recent adapter-level leader
acquisition attempt failed. -/
structure LockState where
  isLeader : Bool
  lockInterval : Option (Nat × Nat)
  heldCodebaseLocks : List (String × String)
  nextTimerId : Nat
  failedOnce : Bool
  lastAttemptFailed : Bool
deriving DecidableEq

/-- State at process start. -/
def initialState : LockState :=
  { isLeader := false, lockInterval := none, heldCodebaseLocks := [],
    nextTimerId := 0, failedOnce := false, lastAttemptFailed := false }

/-- Result of an operation returning a boolean. -/
structure AcqResult where
  res : Bool
  state : LockState
  events : List Event
deriving DecidableEq

/-- Result of a void operation. -/
structure StepResult where
  state : LockState
  events : List Event
deriving DecidableEq

/-- `Map.get`: value of the entry whose key is `p`, if any. -/
def lookupHeld (p : String) : List (String × String) → Option String
  | [] => none
  | (q, lp) :: rest => if q = p then some lp else lookupHeld p rest

/-- `Map.delete`: drop the entry whose key is `p`. -/
def deleteHeld (p : String) (l : List (String × String)) : List (String × String) :=
  l.filter (fun e => decide (e.1 ≠ p))

/-- `acquireLock()`.  `ok` is the outcome of the adapter's
`lockfile.lock(LOCK_FILE, {retries: 0, realpath: false})` call: `true` if it
succeeds, `false` if it throws (lock held elsewhere).  Total function: the
source catches the adapter error and returns `false`, never rethrowing. -/
def acquireLock (env : Env) (ok : Bool) (s : LockState) : AcqResult :=
  if s.isLeader then ⟨true, s, []⟩
  else if ok then
    ⟨true, { s with isLeader := true, lockInterval := none, lastAttemptFailed := false },
      [.lockCall (LOCK_FILE env)]⟩
  else
    match s.lockInterval with
    | none =>
      ⟨false,
        { s with
            isLeader := false,
            lockInterval := some (s.nextTimerId, retryIntervalMs),
            nextTimerId := s.nextTimerId + 1,
            failedOnce := true, lastAttemptFailed := true },
        [.lockCall (LOCK_FILE env)]⟩
    | some _ =>
      ⟨false, { s with isLeader := false, failedOnce := true, lastAttemptFailed := true },
        [.lockCall (LOCK_FILE env)]⟩

/-- `releaseLock()`.  `ok` is the outcome of `lockfile.unlock(LOCK_FILE)`.
When the unlock throws, the source only logs: `isLeader = false` sits after the
`await` inside the `try`, so the flag is left `true`. -/
def releaseLock (env : Env) (ok : Bool) (s : LockState) : StepResult :=
  if s.isLeader then
    if ok then ⟨{ s with isLeader := false }, [.unlockCall (LOCK_FILE env)]⟩
    else ⟨s, [.unlockCall (LOCK_FILE env)]⟩
  else ⟨s, []⟩

/-- `getCodebaseLockPath`: md5 of the resolved path, under `LOCKS_DIR`. -/
def getCodebaseLockPath (env : Env) (codebasePath : String) : String :=
  joinPath (LOCKS_DIR env) (MD5.md5Hex (strBytes (env.resolve codebasePath)))

/-- `acquireCodebaseLock(codebasePath)`.  `ok` is the outcome of the adapter's
`lockfile.lock(lockPath, {retries: 0, realpath: false})` call. -/
def acquireCodebaseLock (env : Env) (ok : Bool) (p : String) (s : LockState) : AcqResult :=
  if (lookupHeld p s.heldCodebaseLocks).isSome then ⟨true, s, []⟩
  else
    let lockPath := getCodebaseLockPath env p
    if ok then
      ⟨true, { s with heldCodebaseLocks := s.heldCodebaseLocks ++ [(p, lockPath)] },
        [.lockCall lockPath]⟩
    else ⟨false, s, [.lockCall lockPath]⟩

/-- `releaseCodebaseLock(codebasePath)`.  `ok` is the outcome of
`lockfile.unlock(lockPath)`.  When the unlock throws, the source only logs:
`heldCodebaseLocks.delete` sits after the `await` inside the `try`, so the
entry is left in the map. -/
def releaseCodebaseLock (_env : Env) (ok : Bool) (p : String) (s : LockState) : StepResult :=
  match lookupHeld p s.heldCodebaseLocks with
  | none => ⟨s, []⟩
  | some lockPath =>
    if ok then
      ⟨{ s with heldCodebaseLocks := deleteHeld p s.heldCodebaseLocks },
        [.unlockCall lockPath]⟩
    else ⟨s, [.unlockCall lockPath]⟩

/-- Loop body of `releaseAllCodebaseLocks` over the snapshot of keys.
`okf` gives the unlock outcome per codebase path. -/
def releaseAllGo (env : Env) (okf : String → Bool) (s : LockState) :
    List String → StepResult
  | [] => ⟨s, []⟩
  | p :: ps =>
    let r := releaseCodebaseLock env (okf p) p s
    let rest := releaseAllGo env okf r.state ps
    ⟨rest.state, r.events ++ rest.events⟩

/-- `releaseAllCodebaseLocks()`: snapshot the keys, release each in turn. -/
def releaseAllCodebaseLocks (env : Env) (okf : String → Bool) (s : LockState) : StepResult :=
  releaseAllGo env okf s (s.heldCodebaseLocks.map Prod.fst)

/-- `isCodebaseLocked(codebasePath)`.  `fileExists` is the result of
`fs.existsSync` on the `.lock`-suffixed path; `checkResult` is the outcome of
`lockfile.checkSync(lockPath, {realpath: false})` — `.error` if it throws,
`.ok b` if it returns the boolean `b` (whether a live process holds the lock).
The source ignores the returned boolean and yields `true` whenever the call
does not throw. -/
def isCodebaseLocked (env : Env) (fileExists : Bool) (checkResult : Except Unit Bool)
    (p : String) : Bool × List Event :=
  let lockPath := getCodebaseLockPath env p
  if fileExists then
    match checkResult with
    | .ok _ => (true, [.checkCall lockPath])
    | .error _ => (false, [.checkCall lockPath])
  else (false, [])

/-- Body of the `process.on('exit', ...)` handler. -/
def onExitHandler (env : Env) (okf : String → Bool) (leaderOk : Bool)
    (s : LockState) : StepResult :=
  let r1 := releaseAllCodebaseLocks env okf s
  let r2 := releaseLock env leaderOk r1.state
  ⟨r2.state, r1.events ++ r2.events⟩

/-- Body of the `process.on('SIGINT', ...)` handler: cleanup then `process.exit()`. -/
def onSigintHandler (env : Env) (okf : String → Bool) (leaderOk : Bool)
    (s : LockState) : StepResult :=
  let r1 := releaseAllCodebaseLocks env okf s
  let r2 := releaseLock env leaderOk r1.state
  ⟨r2.state, r1.events ++ r2.events ++ [.processExit]⟩

/-- Body of the `process.on('SIGTERM', ...)` handler: cleanup then `process.exit()`. -/
def onSigtermHandler (env : Env) (okf : String → Bool) (leaderOk : Bool)
    (s : LockState) : StepResult :=
  let r1 := releaseAllCodebaseLocks env okf s
  let r2 := releaseLock env leaderOk r1.state
  ⟨r2.state, r1.events ++ r2.events ++ [.processExit]⟩

/-- States reachable from process start by any sequence of lock operations,
with arbitrary adapter outcomes.  `timerFire` is the retry timer firing: its
callback is `acquireLock` itself, and it can only fire while scheduled. -/
inductive Reachable (env : Env) : LockState → Prop where
  | init : Reachable env initialState
  | acquire (ok : Bool) {s : LockState} :
      Reachable env s → Reachable env (acquireLock env ok s).state
  | release (ok : Bool) {s : LockState} :
      Reachable env s → Reachable env (releaseLock env ok s).state
  | timerFire (ok : Bool) {s : LockState} :
      Reachable env s → s.lockInterval.isSome = true →
      Reachable env (acquireLock env ok s).state
  | acquireRes (ok : Bool) (p : String) {s : LockState} :
      Reachable env s → Reachable env (acquireCodebaseLock env ok p s).state
  | releaseRes (ok : Bool) (p : String) {s : LockState} :
      Reachable env s → Reachable env (releaseCodebaseLock env ok p s).state
  | releaseAll (okf : String → Bool) {s : LockState} :
      Reachable env s → Reachable env (releaseAllCodebaseLocks env okf s).state

/-- Fixed sample environment for concrete evaluations. -/
def env0 : Env := { home := "/home/user", resolve := fun p => p }

/-- Number of `heldCodebaseLocks` entries whose key is `p`. -/
def countKey (p : String) (l : List (String × String)) : Nat :=
  (l.filter (fun e => decide (e.1 = p))).length

/-- Every event of `t` is an adapter unlock of a lock path held in `s`. -/
def resPhase (s : LockState) (t : List Event) : Prop :=
  ∀ e ∈ t, ∃ p lp, e = Event.unlockCall lp ∧ (p, lp) ∈ s.heldCodebaseLocks

/-- Every resource lock held in `s` receives an adapter unlock event in `t`. -/
def coversHeld (s : LockState) (t : List Event) : Prop :=
  ∀ p lp, lookupHeld p s.heldCodebaseLocks = some lp → Event.unlockCall lp ∈ t

/-- Every event of `t` is an adapter unlock of the leader lock file. -/
def leaderPhase (env : Env) (t : List Event) : Prop :=
  ∀ e ∈ t, e = Event.unlockCall (LOCK_FILE env)

/-- A state in which this process is leader, holds no resource locks, and has
no retry timer. -/
def leaderOnlyState : LockState := { initialState with isLeader := true }

/-- A state holding one resource lock, for codebase path `/repo`. -/
def heldOneState : LockState :=
  { initialState with
      heldCodebaseLocks := [("/repo", getCodebaseLockPath env0 "/repo")] }

/-- State after one failed leader acquisition from process start. -/
def oneFailState : LockState := (acquireLock env0 false initialState).state

/-- State after a failed acquisition, a successful acquisition, and a
successful release: a follower with a failure in its history but no timer. -/
def cexTrace : LockState :=
  (releaseLock env0 true
    (acquireLock env0 true (acquireLock env0 false initialState).state).state).state

/-- State after acquiring the resource lock for `/a` from process start. -/
def oneResHeldState : LockState := (acquireCodebaseLock env0 true "/a" initialState).state

/-! Lemmas about the digest. -/

lemma digestBytes_length (st : Nat × Nat × Nat × Nat) :
    (MD5.digestBytes st).length = 16 := by
  simp [MD5.digestBytes, MD5.wordToBytesLE]

lemma md5Bytes_length (m : List Nat) : (MD5.md5Bytes m).length = 16 :=
  digestBytes_length _

lemma flatten_map_byteToHex_length (l : List Nat) :
    ((l.map MD5.byteToHex).flatten).length = 2 * l.length := by
  induction l with
  | nil => simp
  | cons b rest ih => simp [MD5.byteToHex, ih, Nat.mul_add, Nat.add_comm]; omega

lemma md5Hex_length (m : List Nat) : (MD5.md5Hex m).length = 32 := by
  show (((MD5.md5Bytes m).map MD5.byteToHex).flatten).length = 32
  rw [flatten_map_byteToHex_length, md5Bytes_length]

lemma hexDigitChar_isHex {n : Nat} (h : n < 16) : MD5.isHexDigit (MD5.hexDigitChar n) := by
  interval_cases n <;> decide

lemma byteToHex_isHex {c : Char} {b : Nat} (h : c ∈ MD5.byteToHex b) :
    MD5.isHexDigit c := by
  simp only [MD5.byteToHex, List.mem_cons, List.mem_singleton] at h
  rcases h with h | h | h
  · exact h ▸ hexDigitChar_isHex (Nat.mod_lt _ (by decide))
  · exact h ▸ hexDigitChar_isHex (Nat.mod_lt _ (by decide))
  · cases h

lemma md5Hex_chars {m : List Nat} {c : Char} (h : c ∈ (MD5.md5Hex m).data) :
    MD5.isHexDigit c := by
  have h2 : c ∈ ((MD5.md5Bytes m).map MD5.byteToHex).flatten := h
  rcases List.mem_flatten.mp h2 with ⟨sub, hsub, hc⟩
  rcases List.mem_map.mp hsub with ⟨b, _, rfl⟩
  exact byteToHex_isHex hc

lemma joinPath_length (a b : String) : (joinPath a b).length = a.length + 1 + b.length := by
  simp [joinPath, String.length_append]
  rfl

/-! Lemmas about the held-locks map. -/

lemma lookupHeld_mem {p lp : String} : ∀ {l : List (String × String)},
    lookupHeld p l = some lp → (p, lp) ∈ l := by
  intro l
  induction l with
  | nil => intro h; cases h
  | cons e rest ih =>
    intro h
    rcases e with ⟨q, lq⟩
    by_cases hq : q = p
    · simp [lookupHeld, hq] at h
      simp [hq, h]
    · simp [lookupHeld, hq] at h
      exact List.mem_cons_of_mem _ (ih h)

lemma lookupHeld_none_of_not_mem_keys {p : String} : ∀ {l : List (String × String)},
    p ∉ l.map Prod.fst → lookupHeld p l = none := by
  intro l
  induction l with
  | nil => intro _; rfl
  | cons e rest ih =>
    intro h
    rcases e with ⟨q, lq⟩
    simp only [List.map_cons, List.mem_cons] at h
    push_neg at h
    by_cases hq : q = p
    · exact absurd hq.symm h.1
    · simp [lookupHeld, hq, ih h.2]

lemma lookupHeld_some_mem_keys {p lp : String} {l : List (String × String)}
    (h : lookupHeld p l = some lp) : p ∈ l.map Prod.fst :=
  List.mem_map.mpr ⟨(p, lp), lookupHeld_mem h, rfl⟩

lemma lookupHeld_deleteHeld_ne {q p : String} (hne : q ≠ p) :
    ∀ (l : List (String × String)), lookupHeld q (deleteHeld p l) = lookupHeld q l := by
  intro l
  induction l with
  | nil => rfl
  | cons e rest ih =>
    rcases e with ⟨r, lr⟩
    by_cases hr : r = p
    · subst hr
      have h1 : deleteHeld r ((r, lr) :: rest) = deleteHeld r rest := by
        simp [deleteHeld, List.filter_cons]
      have h2 : lookupHeld q ((r, lr) :: rest) = lookupHeld q rest := by
        simp [lookupHeld, show ¬(r = q) from fun hh => hne hh.symm]
      rw [h1, h2, ih]
    · have h1 : deleteHeld p ((r, lr) :: rest) = (r, lr) :: deleteHeld p rest := by
        simp [deleteHeld, List.filter_cons, hr]
      rw [h1]
      simp only [lookupHeld, ih]

lemma deleteHeld_subset (p : String) (l : List (String × String)) :
    deleteHeld p l ⊆ l :=
  List.filter_subset' _

lemma lookupHeld_append_of_none {p lp : String} : ∀ {l : List (String × String)},
    lookupHeld p l = none → lookupHeld p (l ++ [(p, lp)]) = some lp := by
  intro l
  induction l with
  | nil => intro _; simp [lookupHeld]
  | cons e rest ih =>
    intro h
    rcases e with ⟨q, lq⟩
    by_cases hq : q = p
    · simp [lookupHeld, hq] at h
    · simp only [lookupHeld, hq, if_neg hq, List.cons_append] at h ⊢
      exact ih h

lemma countKey_eq_zero_of_none {p : String} : ∀ {l : List (String × String)},
    lookupHeld p l = none → countKey p l = 0 := by
  intro l
  induction l with
  | nil => intro _; rfl
  | cons e rest ih =>
    intro h
    rcases e with ⟨q, lq⟩
    by_cases hq : q = p
    · simp [lookupHeld, hq] at h
    · simp only [lookupHeld, if_neg hq] at h
      simp [countKey, List.filter_cons, hq, countKey] at ih ⊢
      exact ih h

lemma countKey_eq_one_of_nodup {p lp : String} : ∀ {l : List (String × String)},
    (l.map Prod.fst).Nodup → lookupHeld p l = some lp → countKey p l = 1 := by
  intro l
  induction l with
  | nil => intro _ h; cases h
  | cons e rest ih =>
    intro hnd h
    rcases e with ⟨q, lq⟩
    simp only [List.map_cons, List.nodup_cons] at hnd
    by_cases hq : q = p
    · subst hq
      have hnone : lookupHeld q rest = none :=
        lookupHeld_none_of_not_mem_keys hnd.1
      have h0 : countKey q rest = 0 := countKey_eq_zero_of_none hnone
      have h1 : countKey q ((q, lq) :: rest) = countKey q rest + 1 := by
        simp [countKey, List.filter_cons]
      rw [h1, h0]
    · simp only [lookupHeld, if_neg hq] at h
      have h1 : countKey p ((q, lq) :: rest) = countKey p rest := by
        simp [countKey, List.filter_cons, hq]
      rw [h1]
      exact ih hnd.2 h

lemma countKey_append_self (p lp : String) (l : List (String × String)) :
    countKey p (l ++ [(p, lp)]) = countKey p l + 1 := by
  simp [countKey, List.filter_append]

/-! Lemmas about the operations. -/

lemma acquireLock_held (env : Env) (ok : Bool) (s : LockState) :
    (acquireLock env ok s).state.heldCodebaseLocks = s.heldCodebaseLocks := by
  unfold acquireLock
  by_cases h : s.isLeader <;> cases ok <;> cases hI : s.lockInterval <;> simp [h, hI]

lemma releaseLock_held (env : Env) (ok : Bool) (s : LockState) :
    (releaseLock env ok s).state.heldCodebaseLocks = s.heldCodebaseLocks := by
  unfold releaseLock
  by_cases h : s.isLeader <;> cases ok <;> simp [h]

lemma releaseLock_leaderPhase (env : Env) (ok : Bool) (s : LockState) :
    leaderPhase env (releaseLock env ok s).events := by
  unfold releaseLock leaderPhase
  by_cases h : s.isLeader <;> cases ok <;> simp [h]

lemma acquireCodebaseLock_ghost (env : Env) (ok : Bool) (p : String) (s : LockState) :
    (acquireCodebaseLock env ok p s).state.isLeader = s.isLeader ∧
    (acquireCodebaseLock env ok p s).state.lockInterval = s.lockInterval ∧
    (acquireCodebaseLock env ok p s).state.failedOnce = s.failedOnce ∧
    (acquireCodebaseLock env ok p s).state.lastAttemptFailed = s.lastAttemptFailed := by
  unfold acquireCodebaseLock
  by_cases h : (lookupHeld p s.heldCodebaseLocks).isSome <;> cases ok <;> simp [h]

lemma releaseCodebaseLock_ghost (env : Env) (ok : Bool) (p : String) (s : LockState) :
    (releaseCodebaseLock env ok p s).state.isLeader = s.isLeader ∧
    (releaseCodebaseLock env ok p s).state.lockInterval = s.lockInterval ∧
    (releaseCodebaseLock env ok p s).state.failedOnce = s.failedOnce ∧
    (releaseCodebaseLock env ok p s).state.lastAttemptFailed = s.lastAttemptFailed := by
  unfold releaseCodebaseLock
  cases hL : lookupHeld p s.heldCodebaseLocks <;> cases ok <;> simp [hL]

lemma releaseCodebaseLock_held_sub (env : Env) (ok : Bool) (p : String) (s : LockState) :
    (releaseCodebaseLock env ok p s).state.heldCodebaseLocks ⊆ s.heldCodebaseLocks := by
  unfold releaseCodebaseLock
  cases hL : lookupHeld p s.heldCodebaseLocks <;> cases ok <;>
    simp [hL, List.Subset.refl, deleteHeld_subset]

lemma releaseCodebaseLock_lookup_ne (env : Env) (ok : Bool) {q p : String}
    (hne : q ≠ p) (s : LockState) :
    lookupHeld q (releaseCodebaseLock env ok p s).state.heldCodebaseLocks =
      lookupHeld q s.heldCodebaseLocks := by
  unfold releaseCodebaseLock
  cases hL : lookupHeld p s.heldCodebaseLocks <;> cases ok <;>
    simp [hL, lookupHeld_deleteHeld_ne hne]

lemma releaseAllGo_ghost (env : Env) (okf : String → Bool) :
    ∀ (ks : List String) (s : LockState),
    (releaseAllGo env okf s ks).state.isLeader = s.isLeader ∧
    (releaseAllGo env okf s ks).state.lockInterval = s.lockInterval ∧
    (releaseAllGo env okf s ks).state.failedOnce = s.failedOnce ∧
    (releaseAllGo env okf s ks).state.lastAttemptFailed = s.lastAttemptFailed := by
  intro ks
  induction ks with
  | nil => intro s; simp [releaseAllGo]
  | cons q ps ih =>
    intro s
    have h1 := releaseCodebaseLock_ghost env (okf q) q s
    have h2 := ih (releaseCodebaseLock env (okf q) q s).state
    simp only [releaseAllGo]
    exact ⟨h2.1.trans h1.1, h2.2.1.trans h1.2.1, h2.2.2.1.trans h1.2.2.1,
      h2.2.2.2.trans h1.2.2.2⟩

lemma releaseAllGo_held_sub (env : Env) (okf : String → Bool) :
    ∀ (ks : List String) (s : LockState),
    (releaseAllGo env okf s ks).state.heldCodebaseLocks ⊆ s.heldCodebaseLocks := by
  intro ks
  induction ks with
  | nil => intro s; simp [releaseAllGo]
  | cons q ps ih =>
    intro s
    exact fun e he =>
      releaseCodebaseLock_held_sub env (okf q) q s
        (ih (releaseCodebaseLock env (okf q) q s).state he)

lemma releaseCodebaseLock_events (env : Env) (ok : Bool) (p : String) (s : LockState) :
    ∀ e ∈ (releaseCodebaseLock env ok p s).events,
      ∃ lp, e = Event.unlockCall lp ∧ (p, lp) ∈ s.heldCodebaseLocks := by
  unfold releaseCodebaseLock
  cases hL : lookupHeld p s.heldCodebaseLocks with
  | none => cases ok <;> simp
  | some lp => cases ok <;> simp [hL] <;> exact lookupHeld_mem hL

lemma releaseAllGo_resPhase (env : Env) (okf : String → Bool) :
    ∀ (ks : List String) (s : LockState), resPhase s (releaseAllGo env okf s ks).events := by
  intro ks
  induction ks with
  | nil => intro s e he; cases he
  | cons q ps ih =>
    intro s e he
    simp only [releaseAllGo, List.mem_append] at he
    rcases he with he | he
    · rcases releaseCodebaseLock_events env (okf q) q s e he with ⟨lp, rfl, hm⟩
      exact ⟨q, lp, rfl, hm⟩
    · rcases ih (releaseCodebaseLock env (okf q) q s).state e he with ⟨p, lp, rfl, hm⟩
      exact ⟨p, lp, rfl, releaseCodebaseLock_held_sub env (okf q) q s hm⟩

lemma releaseAllGo_covers (env : Env) (okf : String → Bool) :
    ∀ (ks : List String) (s : LockState) (q lq : String), q ∈ ks →
      lookupHeld q s.heldCodebaseLocks = some lq →
      Event.unlockCall lq ∈ (releaseAllGo env okf s ks).events := by
  intro ks
  induction ks with
  | nil => intro s q lq hk; cases hk
  | cons r ps ih =>
    intro s q lq hk hL
    simp only [releaseAllGo, List.mem_append]
    by_cases hrq : q = r
    · subst hrq
      left
      unfold releaseCodebaseLock
      rw [hL]
      cases okf q <;> simp
    · right
      have hks : q ∈ ps := by
        rcases List.mem_cons.mp hk with h | h
        · exact absurd h hrq
        · exact h
      have hL2 : lookupHeld q (releaseCodebaseLock env (okf r) r s).state.heldCodebaseLocks
          = some lq := by
        rw [releaseCodebaseLock_lookup_ne env (okf r) hrq s]
        exact hL
      exact ih (releaseCodebaseLock env (okf r) r s).state q lq hks hL2

lemma releaseAll_resPhase (env : Env) (okf : String → Bool) (s : LockState) :
    resPhase s (releaseAllCodebaseLocks env okf s).events :=
  releaseAllGo_resPhase env okf _ s

lemma releaseAll_covers (env : Env) (okf : String → Bool) (s : LockState) :
    coversHeld s (releaseAllCodebaseLocks env okf s).events := by
  intro q lq hL
  exact releaseAllGo_covers env okf _ s q lq (lookupHeld_some_mem_keys hL) hL

lemma acquireCodebaseLock_fast (env : Env) (ok : Bool) {p : String} {s : LockState}
    (h : (lookupHeld p s.heldCodebaseLocks).isSome = true) :
    acquireCodebaseLock env ok p s = ⟨true, s, []⟩ := by
  unfold acquireCodebaseLock
  rw [h]
  simp

lemma acquireCodebaseLock_miss_true (env : Env) {p : String} {s : LockState}
    (h : lookupHeld p s.heldCodebaseLocks = none) :
    acquireCodebaseLock env true p s =
      ⟨true,
        { s with heldCodebaseLocks :=
            s.heldCodebaseLocks ++ [(p, getCodebaseLockPath env p)] },
        [.lockCall (getCodebaseLockPath env p)]⟩ := by
  unfold acquireCodebaseLock
  rw [h]
  simp

lemma acquireCodebaseLock_miss_false (env : Env) {p : String} {s : LockState}
    (h : lookupHeld p s.heldCodebaseLocks = none) :
    acquireCodebaseLock env false p s = ⟨false, s, [.lockCall (getCodebaseLockPath env p)]⟩ := by
  unfold acquireCodebaseLock
  rw [h]
  simp

/-- Shorthand for the timer invariant of claim C3 (amended form). -/
def timerInv (t : LockState) : Prop :=
  (t.lockInterval.isSome = t.lastAttemptFailed) ∧
  (t.lockInterval.isSome = true → t.isLeader = false ∧ t.failedOnce = true)

lemma acquireLock_timerInv (env : Env) (ok : Bool) (t : LockState)
    (ih : timerInv t) : timerInv (acquireLock env ok t).state := by
  by_cases hL : t.isLeader = true
  · simpa [acquireLock, hL] using ih
  · simp only [Bool.not_eq_true] at hL
    cases ok
    · unfold timerInv acquireLock
      cases hI : t.lockInterval <;> simp [hL, hI]
    · unfold timerInv acquireLock
      simp [hL]

lemma releaseLock_timerInv (env : Env) (ok : Bool) (t : LockState)
    (ih : timerInv t) : timerInv (releaseLock env ok t).state := by
  by_cases hL : t.isLeader = true
  · cases ok
    · simpa [releaseLock, hL] using ih
    · have hst : (releaseLock env true t).state = { t with isLeader := false } := by
        simp [releaseLock, hL]
      rw [hst]
      exact ⟨ih.1, fun hI => ⟨rfl, (ih.2 hI).2⟩⟩
  · simp only [Bool.not_eq_true] at hL
    have hst : (releaseLock env ok t).state = t := by
      simp [releaseLock, hL]
    rw [hst]
    exact ih

lemma acquireCodebaseLock_timerInv (env : Env) (ok : Bool) (q : String) (t : LockState)
    (ih : timerInv t) : timerInv (acquireCodebaseLock env ok q t).state := by
  rcases acquireCodebaseLock_ghost env ok q t with ⟨e1, e2, e3, e4⟩
  unfold timerInv
  rw [e1, e2, e3, e4]
  exact ih

lemma releaseCodebaseLock_timerInv (env : Env) (ok : Bool) (q : String) (t : LockState)
    (ih : timerInv t) : timerInv (releaseCodebaseLock env ok q t).state := by
  rcases releaseCodebaseLock_ghost env ok q t with ⟨e1, e2, e3, e4⟩
  unfold timerInv
  rw [e1, e2, e3, e4]
  exact ih

lemma releaseAll_timerInv (env : Env) (okf : String → Bool) (t : LockState)
    (ih : timerInv t) : timerInv (releaseAllCodebaseLocks env okf t).state := by
  show timerInv (releaseAllGo env okf t (t.heldCodebaseLocks.map Prod.fst)).state
  rcases releaseAllGo_ghost env okf (t.heldCodebaseLocks.map Prod.fst) t with ⟨e1, e2, e3, e4⟩
  unfold timerInv
  rw [e1, e2, e3, e4]
  exact ih

/-- Shorthand for the held-map invariant of claim C10. -/
def heldInv (env : Env) (t : LockState) : Prop :=
  ∀ p lp, (p, lp) ∈ t.heldCodebaseLocks → lp = getCodebaseLockPath env p

lemma acquireCodebaseLock_heldInv (env : Env) (ok : Bool) (q : String) (t : LockState)
    (ih : heldInv env t) : heldInv env (acquireCodebaseLock env ok q t).state := by
  intro p lp hm
  by_cases hq : (lookupHeld q t.heldCodebaseLocks).isSome = true
  · rw [acquireCodebaseLock_fast env ok hq] at hm
    exact ih p lp hm
  · have hn : lookupHeld q t.heldCodebaseLocks = none := by
      cases hL : lookupHeld q t.heldCodebaseLocks
      · rfl
      · rw [hL] at hq
        simp at hq
    cases ok with
    | false =>
      rw [acquireCodebaseLock_miss_false env hn] at hm
      exact ih p lp hm
    | true =>
      rw [acquireCodebaseLock_miss_true env hn] at hm
      rcases List.mem_append.mp hm with hm2 | hm2
      · exact ih p lp hm2
      · have h3 := List.mem_singleton.mp hm2
        rw [Prod.mk.injEq] at h3
        rw [h3.2, h3.1]

/-! The claims. -/

/-- C1 (code bug): `releaseLock` is called while leader and the adapter unlock
fails.  The claim (and the spec) say the in-memory state still transitions to
follower; in the source `isLeader = false` sits after the `await` inside the
`try`, so when `lockfile.unlock` throws the flag stays `true` and the whole
state is unchanged — the process keeps claiming leadership. -/
theorem releaseLock_failed_keeps_leader :
    (releaseLock env0 false leaderOnlyState).state.isLeader = true ∧
    (releaseLock env0 false leaderOnlyState).state = leaderOnlyState :=
  ⟨rfl, rfl⟩

/-- C2 (code bug): `releaseCodebaseLock("/repo")` is called while the lock is
held and the adapter unlock fails.  The claim (and the spec) say the entry is
removed from `heldCodebaseLocks` regardless; in the source the
`heldCodebaseLocks.delete` sits after the `await` inside the `try`, so when
`lockfile.unlock` throws the entry is still present afterwards. -/
theorem releaseCodebaseLock_failed_keeps_entry :
    lookupHeld "/repo"
        (releaseCodebaseLock env0 false "/repo" heldOneState).state.heldCodebaseLocks
      = some (getCodebaseLockPath env0 "/repo") ∧
    (releaseCodebaseLock env0 false "/repo" heldOneState).state = heldOneState :=
  ⟨rfl, rfl⟩

/-- C3 (counterexample): the claimed invariant — the retry timer exists iff
the process is a follower and at least one acquisition attempt has failed —
is violated by the reachable state after a failed acquisition, a successful
acquisition, and a successful release (`cexTrace`): the process is a follower
with a failed attempt in its history, yet the timer was cleared on the
successful acquisition and never rescheduled. -/
theorem timer_iff_failed_refuted :
    ¬ (∀ (env : Env) (s : LockState), Reachable env s →
        (s.lockInterval.isSome = true ↔ (s.isLeader = false ∧ s.failedOnce = true))) := by
  intro h
  have hr : Reachable env0 cexTrace :=
    Reachable.release true (Reachable.acquire true (Reachable.acquire false Reachable.init))
  have h2 := (h env0 cexTrace hr).mpr ⟨rfl, rfl⟩
  have h3 : cexTrace.lockInterval = none := rfl
  rw [h3] at h2
  exact absurd h2 (by decide)

/-- C3 (amended): in every reachable state the retry timer exists iff the most
recent adapter-level leader acquisition attempt failed; whenever it exists,
the process is a follower and at least one acquisition attempt has failed.
(The converse of the original claim fails, see the counterexample.) -/
theorem timer_matches_last_attempt (env : Env) (s : LockState) (h : Reachable env s) :
    (s.lockInterval.isSome = s.lastAttemptFailed) ∧
    (s.lockInterval.isSome = true → s.isLeader = false ∧ s.failedOnce = true) := by
  show timerInv s
  induction h with
  | init => exact ⟨rfl, fun h2 => absurd h2 (by decide)⟩
  | acquire ok hR ih => exact acquireLock_timerInv env ok _ ih
  | timerFire ok hR hT ih => exact acquireLock_timerInv env ok _ ih
  | release ok hR ih => exact releaseLock_timerInv env ok _ ih
  | acquireRes ok p hR ih => exact acquireCodebaseLock_timerInv env ok p _ ih
  | releaseRes ok p hR ih => exact releaseCodebaseLock_timerInv env ok p _ ih
  | releaseAll okf hR ih => exact releaseAll_timerInv env okf _ ih

/-- C3 witness: the amended invariant evaluated on the reachable state after
one failed acquisition. -/
theorem timer_matches_last_attempt_witness :
    (oneFailState.lockInterval.isSome = oneFailState.lastAttemptFailed) ∧
    (oneFailState.lockInterval.isSome = true →
      oneFailState.isLeader = false ∧ oneFailState.failedOnce = true) :=
  timer_matches_last_attempt env0 oneFailState (Reachable.acquire false Reachable.init)

/-- C4: when the process is already leader, `acquireLock` returns true with no
adapter call and no change to any state, including the held-locks map. -/
theorem acquire_when_leader_identity (env : Env) (ok : Bool) (s : LockState)
    (h : s.isLeader = true) :
    acquireLock env ok s = ⟨true, s, []⟩ := by
  unfold acquireLock
  rw [h]
  simp

/-- C4 witness: the leader fast path evaluated on a concrete leader state. -/
theorem acquire_when_leader_identity_witness :
    acquireLock env0 true leaderOnlyState = ⟨true, leaderOnlyState, []⟩ :=
  acquire_when_leader_identity env0 true leaderOnlyState rfl

/-- C5: a failed adapter lock attempt never escapes `acquireLock` (the
function is total and returns a boolean): the call returns false, the leader
flag is false afterwards, a retry timer is present afterwards, a fresh timer
with the 5000 ms interval is created exactly when none was scheduled, and an
already-scheduled timer is left untouched (so at most one timer exists). -/
theorem acquire_failure_behavior (env : Env) (s : LockState) (h : s.isLeader = false) :
    (acquireLock env false s).res = false ∧
    (acquireLock env false s).state.isLeader = false ∧
    (acquireLock env false s).state.lockInterval.isSome = true ∧
    (s.lockInterval = none →
      (acquireLock env false s).state.lockInterval =
        some (s.nextTimerId, retryIntervalMs)) ∧
    (∀ t, s.lockInterval = some t → (acquireLock env false s).state.lockInterval = some t) := by
  unfold acquireLock
  cases hI : s.lockInterval <;> simp [h, hI]

/-- C5 witness: the failure path evaluated from the initial state. -/
theorem acquire_failure_behavior_witness :
    (acquireLock env0 false initialState).res = false ∧
    (acquireLock env0 false initialState).state.isLeader = false ∧
    (acquireLock env0 false initialState).state.lockInterval =
      some (initialState.nextTimerId, retryIntervalMs) := by
  have h := acquire_failure_behavior env0 initialState rfl
  exact ⟨h.1, h.2.1, h.2.2.2.1 rfl⟩

/-- C6: `getCodebaseLockPath` is a pure function of the resolved path — two
identifiers with the same canonical form map to the same lock path — and the
digest component is a fixed-length (32 characters) string over the lowercase
hex alphabet, so the whole path has fixed length; as a closed function of its
inputs it is stable across process restarts. -/
theorem codebase_lock_path_deterministic (env : Env) (r1 r2 : String)
    (h : env.resolve r1 = env.resolve r2) :
    getCodebaseLockPath env r1 = getCodebaseLockPath env r2 ∧
    (MD5.md5Hex (strBytes (env.resolve r1))).length = 32 ∧
    (∀ c ∈ (MD5.md5Hex (strBytes (env.resolve r1))).data, MD5.isHexDigit c) ∧
    (getCodebaseLockPath env r1).length = (LOCKS_DIR env).length + 33 := by
  refine ⟨?_, md5Hex_length _, fun c hc => md5Hex_chars hc, ?_⟩
  · unfold getCodebaseLockPath
    rw [h]
  · unfold getCodebaseLockPath
    rw [joinPath_length, md5Hex_length]

/-- C6 witness: determinism and fixed output length evaluated at `"a"`. -/
theorem codebase_lock_path_deterministic_witness :
    getCodebaseLockPath env0 "a" = getCodebaseLockPath env0 "a" ∧
    (MD5.md5Hex (strBytes (env0.resolve "a"))).length = 32 ∧
    (getCodebaseLockPath env0 "a").length = (LOCKS_DIR env0).length + 33 := by
  have h := codebase_lock_path_deterministic env0 "a" "a" rfl
  exact ⟨h.1, h.2.1, h.2.2.2⟩

/-- C7: `acquireCodebaseLock` is idempotent per identifier: when the map
already holds the identifier the call returns true with no adapter call and no
state change; and after any successful call, a second call returns true, makes
no adapter call, changes nothing, and exactly one held entry exists for the
identifier. -/
theorem acquire_codebase_idempotent (env : Env) (ok ok1 ok2 : Bool) (p : String)
    (s : LockState) (hnd : (s.heldCodebaseLocks.map Prod.fst).Nodup) :
    ((lookupHeld p s.heldCodebaseLocks).isSome = true →
      acquireCodebaseLock env ok p s = ⟨true, s, []⟩) ∧
    ((acquireCodebaseLock env ok1 p s).res = true →
      acquireCodebaseLock env ok2 p (acquireCodebaseLock env ok1 p s).state =
        ⟨true, (acquireCodebaseLock env ok1 p s).state, []⟩ ∧
      countKey p (acquireCodebaseLock env ok1 p s).state.heldCodebaseLocks = 1) := by
  refine ⟨fun h => acquireCodebaseLock_fast env ok h, fun h1 => ?_⟩
  by_cases hs : (lookupHeld p s.heldCodebaseLocks).isSome = true
  · have e1 : acquireCodebaseLock env ok1 p s = ⟨true, s, []⟩ :=
      acquireCodebaseLock_fast env ok1 hs
    rcases Option.isSome_iff_exists.mp hs with ⟨lp, hlp⟩
    rw [e1]
    exact ⟨acquireCodebaseLock_fast env ok2 hs, countKey_eq_one_of_nodup hnd hlp⟩
  · have hn : lookupHeld p s.heldCodebaseLocks = none := by
      cases hL : lookupHeld p s.heldCodebaseLocks
      · rfl
      · rw [hL] at hs
        simp at hs
    cases ok1 with
    | false =>
      rw [acquireCodebaseLock_miss_false env hn] at h1
      cases h1
    | true =>
      have e1 := acquireCodebaseLock_miss_true env hn
      have hl2 : lookupHeld p (acquireCodebaseLock env true p s).state.heldCodebaseLocks
          = some (getCodebaseLockPath env p) := by
        rw [e1]
        exact lookupHeld_append_of_none hn
      refine ⟨acquireCodebaseLock_fast env ok2 (by rw [hl2]; rfl), ?_⟩
      rw [e1]
      show countKey p (s.heldCodebaseLocks ++ [(p, getCodebaseLockPath env p)]) = 1
      rw [countKey_append_self, countKey_eq_zero_of_none hn]

/-- C7 witness: two successive acquisitions of `/a` from the initial state. -/
theorem acquire_codebase_idempotent_witness :
    acquireCodebaseLock env0 true "/a" (acquireCodebaseLock env0 true "/a" initialState).state =
      ⟨true, (acquireCodebaseLock env0 true "/a" initialState).state, []⟩ ∧
    countKey "/a" (acquireCodebaseLock env0 true "/a" initialState).state.heldCodebaseLocks = 1 := by
  have h := acquire_codebase_idempotent env0 true true true "/a" initialState (by simp [initialState])
  exact h.2 rfl

/-- C8 (code bug): when the lock file exists and the adapter's `checkSync`
returns `false` (lock file present but stale, no live holder), the source
still returns `true`: the returned boolean of `checkSync` is discarded and
only a thrown error reaches the `catch` that reports "not locked" — contrary
to the claim, the function's own comments, and the spec's stale-safety
requirement.  The no-file fast path does return false with no adapter call. -/
theorem isCodebaseLocked_stale_reports_true :
    (isCodebaseLocked env0 true (Except.ok false) "/repo").1 = true ∧
    isCodebaseLocked env0 false (Except.ok true) "/repo" = (false, []) :=
  ⟨rfl, rfl⟩

/-- C9: each of the three shutdown handlers produces a cleanup sequence that
splits into a first phase consisting only of unlock calls on held resource
lock paths and covering every held resource lock, followed by a phase
consisting only of unlock calls on the leader lock file; on the two
signal-triggered paths the trace ends with the explicit `process.exit()`. -/
theorem shutdown_releases_resources_before_leader (env : Env) (okf : String → Bool)
    (leaderOk : Bool) (s : LockState) :
    (∃ t1 t2, (onExitHandler env okf leaderOk s).events = t1 ++ t2 ∧
      resPhase s t1 ∧ coversHeld s t1 ∧ leaderPhase env t2) ∧
    (∃ t1 t2, (onSigintHandler env okf leaderOk s).events = t1 ++ t2 ++ [Event.processExit] ∧
      resPhase s t1 ∧ coversHeld s t1 ∧ leaderPhase env t2) ∧
    (∃ t1 t2, (onSigtermHandler env okf leaderOk s).events = t1 ++ t2 ++ [Event.processExit] ∧
      resPhase s t1 ∧ coversHeld s t1 ∧ leaderPhase env t2) :=
  ⟨⟨_, _, rfl, releaseAll_resPhase env okf s, releaseAll_covers env okf s,
      releaseLock_leaderPhase env leaderOk _⟩,
    ⟨_, _, rfl, releaseAll_resPhase env okf s, releaseAll_covers env okf s,
      releaseLock_leaderPhase env leaderOk _⟩,
    ⟨_, _, rfl, releaseAll_resPhase env okf s, releaseAll_covers env okf s,
      releaseLock_leaderPhase env leaderOk _⟩⟩

/-- C10: in every reachable state, each entry of the held-locks map stores
exactly the lock path computed by `getCodebaseLockPath` from its key. -/
theorem held_values_are_hashes (env : Env) (s : LockState) (h : Reachable env s) :
    ∀ p lp, (p, lp) ∈ s.heldCodebaseLocks → lp = getCodebaseLockPath env p := by
  show heldInv env s
  induction h with
  | init => intro p lp hm; cases hm
  | acquire ok hR ih =>
    intro p lp hm
    rw [acquireLock_held] at hm
    exact ih p lp hm
  | timerFire ok hR hT ih =>
    intro p lp hm
    rw [acquireLock_held] at hm
    exact ih p lp hm
  | release ok hR ih =>
    intro p lp hm
    rw [releaseLock_held] at hm
    exact ih p lp hm
  | acquireRes ok q hR ih => exact acquireCodebaseLock_heldInv env ok q _ ih
  | releaseRes ok q hR ih =>
    intro p lp hm
    exact ih p lp (releaseCodebaseLock_held_sub env ok q _ hm)
  | releaseAll okf hR ih =>
    intro p lp hm
    exact ih p lp (releaseAllGo_held_sub env okf _ _ hm)

/-- C10 witness: the invariant evaluated on the reachable state holding the
lock for `/a`. -/
theorem held_values_are_hashes_witness :
    ("/a", getCodebaseLockPath env0 "/a") ∈ oneResHeldState.heldCodebaseLocks ∧
    getCodebaseLockPath env0 "/a" = getCodebaseLockPath env0 "/a" := by
  have hm : ("/a", getCodebaseLockPath env0 "/a") ∈ oneResHeldState.heldCodebaseLocks := by
    show _ ∈ (acquireCodebaseLock env0 true "/a" initialState).state.heldCodebaseLocks
    rw [@acquireCodebaseLock_miss_true env0 "/a" initialState rfl]
    simp
  exact ⟨hm, held_values_are_hashes env0 oneResHeldState
    (Reachable.acquireRes true "/a" Reachable.init) "/a" _ hm⟩

end ClaudeContext

